import Mathlib

/-!
Verification of the instrumentation utilities in jina/logging/profile.py.

The embedding is shallow: clock readings from time.perf_counter are passed
as explicit rational parameters, Python dicts become association lists over
string keys, a raised exception becomes an Option/Except failure, and the
lines written to a logger or to the console are returned as explicit output
lists.  Numeric formatting of floats in format strings is abstracted: an
output record carries the exact value that the source would format.
-/

namespace JinaProfile

/-- A Python dict from string keys to float values, as an association list.
The source uses defaultdict(float), so absent keys read as 0 (see lookupD). -/
abbrev QMap := List (String × ℚ)

/-- Dict read with the defaultdict(float) default of 0. -/
def lookupD (m : QMap) (k : String) : ℚ := (m.lookup k).getD 0

/-- Dict assignment m[k] = v. -/
def mapSet (m : QMap) (k : String) (v : ℚ) : QMap :=
  (k, v) :: m.filter (fun p => p.fst != k)

/-- State of class TimeDict.  The source field _key_stack is a Python list
whose last element is the top; here the top is the head of the list.
_pending_reset keeps its meaning; the leading underscores are dropped. -/
structure TimeDict where
  accum_time : QMap
  first_start_time : QMap
  start_time : QMap
  end_time : QMap
  key_stack : List String
  pending_reset : Bool
  deriving DecidableEq

/-- The state built by TimeDict.__init__. -/
def TimeDict.init : TimeDict := ⟨[], [], [], [], [], false⟩

/-- TimeDict.__call__(key): push the key onto the stack and return self. -/
def TimeDict.call (td : TimeDict) (key : String) : TimeDict :=
  { td with key_stack := key :: td.key_stack }

/-- TimeDict.__enter__ with its two perf_counter readings: t1 is the reading
stored into first_start_time when the key was never seen, t2 the reading
stored into start_time.  Reading the top of an empty stack is the source
IndexError, modelled as none. -/
def TimeDict.enter (td : TimeDict) (t1 t2 : ℚ) : Option TimeDict :=
  match td.key_stack with
  | [] => none
  | k :: _ =>
    some { td with
      first_start_time :=
        if (td.first_start_time.lookup k).isSome then td.first_start_time
        else mapSet td.first_start_time k t1,
      start_time := mapSet td.start_time k t2 }

/-- TimeDict.reset: clear everything when the stack is empty, otherwise only
raise the pending flag. -/
def TimeDict.reset (td : TimeDict) : TimeDict :=
  if td.key_stack.isEmpty then TimeDict.init
  else { td with pending_reset := true }

/-- TimeDict.__exit__ with its perf_counter reading t.  It pops the stack
(the source list.pop raises IndexError on an empty stack, modelled as none,
before any mapping is written), records end_time, adds the interval to
accum_time, and performs the pending reset if requested. -/
def TimeDict.exit (td : TimeDict) (t : ℚ) : Option TimeDict :=
  match td.key_stack with
  | [] => none
  | k :: rest =>
    let td2 : TimeDict :=
      { td with
        key_stack := rest,
        end_time := mapSet td.end_time k t,
        accum_time :=
          mapSet td.accum_time k
            (lookupD td.accum_time k + (t - lookupD td.start_time k)) }
    some (if td2.pending_reset then td2.reset else td2)

/-- The begin(k) step of the usage pattern, td(key).__enter__(), written
directly on the state; theorem begin_eq_call_enter checks it against the
composition of TimeDict.call and TimeDict.enter. -/
def TimeDict.begin (td : TimeDict) (k : String) (t1 t2 : ℚ) : TimeDict :=
  { td with
    key_stack := k :: td.key_stack,
    first_start_time :=
      if (td.first_start_time.lookup k).isSome then td.first_start_time
      else mapSet td.first_start_time k t1,
    start_time := mapSet td.start_time k t2 }

/-- One operation on a TimeDict: begin is __call__ followed by __enter__
(with the two clock readings of __enter__), stop is __exit__ (one reading),
reset is reset(). -/
inductive Op
  | begin (k : String) (t1 t2 : ℚ)
  | stop (t : ℚ)
  | reset
  deriving DecidableEq

/-- Run a list of operations, failing where the source raises. -/
def runOps : TimeDict → List Op → Option TimeDict
  | td, [] => some td
  | td, Op.begin k t1 t2 :: rest => runOps (td.begin k t1 t2) rest
  | td, Op.stop t :: rest =>
    match td.exit t with
    | some td2 => runOps td2 rest
    | none => none
  | td, Op.reset :: rest => runOps td.reset rest

/-- True when the trace contains no reset operation. -/
def noReset (ops : List Op) : Bool :=
  ops.all fun op =>
    match op with
    | Op.reset => false
    | _ => true

/-- Modelled from the spec: the measured intervals of a strictly LIFO
begin/end trace.  A stack of open keys pairs each end with the most recent
unmatched begin; the interval of an end at stop timestamp t for key k is t
minus the most recent start timestamp recorded for k (the ls argument).
An end on an empty stack and a reset are outside this function, hence none. -/
def specIntervals : List String → (String → ℚ) → List Op → Option (List (String × ℚ))
  | _, _, [] => some []
  | stk, ls, Op.begin k _ t2 :: rest =>
      specIntervals (k :: stk) (fun j => if j = k then t2 else ls j) rest
  | [], _, Op.stop _ :: _ => none
  | k :: s, ls, Op.stop t :: rest =>
      (specIntervals s ls rest).map (fun ivs => (k, t - ls k) :: ivs)
  | _, _, Op.reset :: _ => none

/-- Sum of the intervals recorded for key k. -/
def sumFor (k : String) (ivs : List (String × ℚ)) : ℚ :=
  ((ivs.filter (fun p => p.fst == k)).map Prod.snd).sum

/-- Truthiness of os.environ.get with default False on the JINA_PROFILING
variable: a present, non-empty string is truthy; an absent variable yields
False, and the empty string is falsy. -/
def envTruthy (env : List (String × String)) : Bool :=
  match env.lookup "JINA_PROFILING" with
  | some v => v != ""
  | none => false

/-- Shallow embedding of used_memory.  Availability of the resource module
and its getrusage peak-RSS reading is modelled as an Option: none is the
ModuleNotFoundError branch.  The result pairs the returned value with the
list of warning lines sent to default_logger. -/
def used_memory (ruMaxrss : Option ℚ) (unit : ℚ) : ℚ × List String :=
  match ruMaxrss with
  | some m => (m / unit, [])
  | none =>
    (0, ["module \"resource\" can not be found and you are likely running it on Windows"])

/-- One line sent to profile_logger by arg_wrapper.  The format string
interpolates the qualified name, the elapsed seconds and the two memory
readings; the record carries those exact values. -/
structure ProfileLog where
  qualname : String
  elapsed : ℚ
  startMem : ℚ
  endMem : ℚ
  deriving DecidableEq

/-- One invocation of the arg_wrapper closure produced by the profiling
decorator.  The environment is the process environment at call time (the
source reads os.environ inside the wrapper on every call, never at wrap
time).  t0 and t1 are the two perf_counter readings, r0 and r1 the two
peak-RSS probe readings used by the two used_memory calls.  The wrapped
callable is f, which either returns a value or raises; a raise inside the
enabled branch propagates before the log line is built, so no line is
emitted for it. -/
def arg_wrapper {α ε β : Type} (env : List (String × String)) (qualname : String)
    (f : α → Except ε β) (x : α) (t0 t1 : ℚ) (r0 r1 : Option ℚ) :
    Except ε β × List ProfileLog :=
  if envTruthy env then
    let start_mem := (used_memory r0 (1024 * 1024)).1
    match f x with
    | Except.ok r =>
      let end_mem := (used_memory r1 (1024 * 1024)).1
      (Except.ok r, [⟨qualname, t1 - t0, start_mem, end_mem⟩])
    | Except.error e => (Except.error e, [])
  else (f x, [])

/-- The per-call context of one invocation of a wrapped callable: the
process environment as it stands at that call, the argument, and the clock
and memory readings the call makes. -/
structure CallCtx (α : Type) where
  env : List (String × String)
  arg : α
  t0 : ℚ
  t1 : ℚ
  r0 : Option ℚ
  r1 : Option ℚ

/-- A sequence of invocations of the same wrapped callable, each governed by
its own call-time environment. -/
def runCalls {α ε β : Type} (qualname : String) (f : α → Except ε β)
    (calls : List (CallCtx α)) : List (Except ε β × List ProfileLog) :=
  calls.map fun c => arg_wrapper c.env qualname f c.arg c.t0 c.t1 c.r0 c.r1

/-- One line of TimeContext output: progress is the unbuffered console
write of the label on entry, info is the logger.info completion message,
console is the colored console completion line.  The completion lines
format the duration to three decimal places; the records carry the exact
duration. -/
inductive Report
  | progress (msg : String)
  | info (msg : String) (duration : ℚ)
  | console (duration : ℚ) (color : String)
  deriving DecidableEq

/-- State of class TimeContext: the label, whether a logger was supplied,
the last measured duration (0 from __init__), and the start reading. -/
structure TimeContext where
  msg : String
  hasLogger : Bool
  duration : ℚ
  start : ℚ
  deriving DecidableEq

/-- TimeContext.__init__(msg, logger).  The source sets self.start only in
__enter__; the field is initialised to 0 here and is meaningful after
TimeContext.enter. -/
def TimeContext.make (msg : String) (hasLogger : Bool) : TimeContext :=
  ⟨msg, hasLogger, 0, 0⟩

/-- TimeContext.__enter__ with its perf_counter reading: store the start
and, without a logger, print the label with the in-progress marker. -/
def TimeContext.enter (tc : TimeContext) (now : ℚ) : TimeContext × List Report :=
  ({ tc with start := now },
   if tc.hasLogger then [] else [Report.progress tc.msg])

/-- TimeContext.__exit__ with its perf_counter reading.  The exception
triple of the source is ignored by the body, here the exc argument.  The
duration is stored on the instance, one completion line is emitted, and the
returned Bool is the truthiness of the Python return value None, the
suppression answer of the context manager protocol. -/
def TimeContext.exit (tc : TimeContext) (now : ℚ) (exc : Option String) :
    TimeContext × List Report × Bool :=
  let tc2 := { tc with duration := now - tc.start }
  (tc2,
   [if tc2.hasLogger then Report.info tc2.msg tc2.duration
    else Report.console tc2.duration "green"],
   false)

/-- Python with-statement semantics around a TimeContext: enter, run the
body (a value or a raised exception), exit, and propagate the exception
unless __exit__ answered truthily.  On suppression the with statement would
fall through without the body value, hence the Option. -/
def withTime {β : Type} (tc : TimeContext) (tEnter tExit : ℚ)
    (body : Except String β) :
    Except String (Option β × TimeContext) × List Report :=
  let (tc1, out1) := tc.enter tEnter
  match body with
  | Except.ok v =>
    let (tc2, out2, _) := tc1.exit tExit none
    (Except.ok (some v, tc2), out1 ++ out2)
  | Except.error e =>
    let (tc2, out2, suppress) := tc1.exit tExit (some e)
    (if suppress then Except.ok (none, tc2) else Except.error e, out1 ++ out2)

/-- Concrete trace: open region a, a nested region b inside it, close both. -/
def exampleOps : List Op :=
  [Op.begin "a" 1 1, Op.begin "b" 2 2, Op.stop 5, Op.stop 7]

/-- The state that running exampleOps from the initial state produces; the
accumulated values are kept as the unevaluated sums 0 + (7 - 1) = 6 and
0 + (5 - 2) = 3. -/
def exampleTd : TimeDict :=
  ⟨[("a", 0 + (7 - 1)), ("b", 0 + (5 - 2))], [("b", 2), ("a", 1)],
   [("b", 2), ("a", 1)], [("a", 7), ("b", 5)], [], false⟩

/-- A state with one open region a, begun with readings 1 and 2. -/
def tdOpen : TimeDict := TimeDict.init.begin "a" 1 2

/-- The state tdOpen after a reset request arrived while a is still open. -/
def tdOpenPending : TimeDict := { tdOpen with pending_reset := true }

/-- The state tdOpen after closing a at reading 5; the accumulated value is
kept as the unevaluated sum 0 + (5 - 2) = 3. -/
def tdClosed : TimeDict :=
  ⟨[("a", 0 + (5 - 2))], [("a", 1)], [("a", 2)], [("a", 5)], [], false⟩

/-- A callable that returns its argument. -/
def fId : Nat → Except String Nat := fun n => Except.ok n

/-- A callable that raises. -/
def failingCall : Unit → Except String Unit := fun _ => Except.error "boom"

/-- A call context whose environment enables the profiling toggle. -/
def ctxOn : CallCtx Nat := ⟨[("JINA_PROFILING", "1")], 7, 0, 2, none, none⟩

/-- A call context whose environment leaves the toggle unset. -/
def ctxOff : CallCtx Nat := ⟨[], 7, 0, 2, none, none⟩

/-- Dict read after assignment, same key. -/
theorem lookup_mapSet_self (m : QMap) (k : String) (v : ℚ) :
    (mapSet m k v).lookup k = some v := by
  simp [mapSet, List.lookup]

/-- Filtering out the entries of another key does not change a dict read. -/
theorem lookup_filter_ne (m : QMap) (k j : String) (h : j ≠ k) :
    (m.filter fun p => p.fst != k).lookup j = m.lookup j := by
  induction m with
  | nil => rfl
  | cons p rest ih =>
    obtain ⟨pk, pv⟩ := p
    by_cases hp : pk = k
    · subst hp
      have hj : (j == pk) = false := by simp [h]
      simp [List.filter_cons, List.lookup, hj, ih]
    · have : (pk != k) = true := by simp [hp]
      simp [List.filter_cons, this, List.lookup, ih]

/-- Dict read after assignment, any key. -/
theorem lookup_mapSet (m : QMap) (k j : String) (v : ℚ) :
    (mapSet m k v).lookup j = if j = k then some v else m.lookup j := by
  by_cases h : j = k
  · subst h; simp [lookup_mapSet_self]
  · have hjk : (j == k) = false := by simp [h]
    simp [mapSet, List.lookup, h, hjk, lookup_filter_ne m k j h]

/-- Defaulted dict read after assignment. -/
theorem lookupD_mapSet (m : QMap) (k j : String) (v : ℚ) :
    lookupD (mapSet m k v) j = if j = k then v else lookupD m j := by
  by_cases h : j = k <;> simp [lookupD, lookup_mapSet, h]

/-- Splitting one interval off a sum of intervals. -/
theorem sumFor_cons (j k : String) (iv : ℚ) (ivs : List (String × ℚ)) :
    sumFor j ((k, iv) :: ivs) =
      if k = j then iv + sumFor j ivs else sumFor j ivs := by
  by_cases h : k = j <;> simp [sumFor, List.filter_cons, h]

/-- The begin operation agrees with __call__ followed by __enter__. -/
theorem begin_eq_call_enter (td : TimeDict) (k : String) (t1 t2 : ℚ) :
    (td.call k).enter t1 t2 = some (td.begin k t1 t2) := rfl

/-- C1: a reset requested while the key stack is non-empty clears nothing
and only raises the pending flag; once the stack is empty the full reset
happens, either because reset() found the stack already empty or because
the last outstanding exit ran with the pending flag set, and it leaves all
four mappings and the stack empty with the flag down. -/
theorem C1_deferred_reset (td : TimeDict) :
    (td.key_stack ≠ [] → td.reset = { td with pending_reset := true }) ∧
    (td.key_stack = [] → td.reset = TimeDict.init) ∧
    (∀ k t, td.key_stack = [k] → td.pending_reset = true →
      td.exit t = some TimeDict.init) := by
  refine ⟨?_, ?_, ?_⟩
  · intro h
    have : td.key_stack.isEmpty = false := by
      cases hk : td.key_stack with
      | nil => exact absurd hk h
      | cons a l => rfl
    simp [TimeDict.reset, this]
  · intro h
    simp [TimeDict.reset, h]
  · intro k t hstk hpend
    simp [TimeDict.exit, hstk, hpend, TimeDict.reset]

/-- Witness for C1 at concrete states: a deferred reset on an open region,
an immediate reset on the empty stack, and the reset performed by the last
outstanding exit. -/
theorem C1_witness :
    (tdOpen.reset = { tdOpen with pending_reset := true }) ∧
    (TimeDict.init.reset = TimeDict.init) ∧
    (tdOpenPending.exit 5 = some TimeDict.init) :=
  ⟨(C1_deferred_reset tdOpen).1 (by decide),
   (C1_deferred_reset TimeDict.init).2.1 rfl,
   (C1_deferred_reset tdOpenPending).2.2 "a" 5 (by decide) rfl⟩

/-- C5: first_start_time of a key is assigned by the first begin for that
key, is left unchanged by every later begin even though start_time is
overwritten, survives a deferred reset request and any exit that does not
perform the pending reset, and is only removed by the full reset. -/
theorem C5_first_start_write_once (td : TimeDict) (k : String) (t1 t2 : ℚ) :
    (td.first_start_time.lookup k = none →
      (td.begin k t1 t2).first_start_time.lookup k = some t1) ∧
    (∀ v, td.first_start_time.lookup k = some v →
      (td.begin k t1 t2).first_start_time.lookup k = some v) ∧
    ((td.begin k t1 t2).start_time.lookup k = some t2) ∧
    (td.key_stack ≠ [] → td.reset.first_start_time = td.first_start_time) ∧
    (∀ t td2, td.exit t = some td2 → td.pending_reset = false →
      td2.first_start_time = td.first_start_time) ∧
    (td.key_stack = [] → td.reset.first_start_time = []) := by
  refine ⟨?_, ?_, ?_, ?_, ?_, ?_⟩
  · intro h
    simp [TimeDict.begin, h, lookup_mapSet_self]
  · intro v h
    simp [TimeDict.begin, h]
  · simp [TimeDict.begin, lookup_mapSet_self]
  · intro h
    have : td.key_stack.isEmpty = false := by
      cases hk : td.key_stack with
      | nil => exact absurd hk h
      | cons a l => rfl
    simp [TimeDict.reset, this]
  · intro t td2 hexit hpend
    cases hstk : td.key_stack with
    | nil => simp [TimeDict.exit, hstk] at hexit
    | cons k2 rest =>
      simp [TimeDict.exit, hstk, hpend] at hexit
      subst hexit
      rfl
  · intro h
    simp [TimeDict.reset, h, TimeDict.init]

/-- Witness for C5 at concrete states: first assignment, preservation by a
repeated begin that still overwrites start_time, and preservation by exit. -/
theorem C5_witness :
    ((TimeDict.init.begin "a" 1 2).first_start_time.lookup "a" = some 1) ∧
    ((tdOpen.begin "a" 3 4).first_start_time.lookup "a" = some 1) ∧
    ((tdOpen.begin "a" 3 4).start_time.lookup "a" = some 4) ∧
    (tdOpen.reset.first_start_time = tdOpen.first_start_time) ∧
    (tdClosed.first_start_time = tdOpen.first_start_time) ∧
    (TimeDict.init.reset.first_start_time = []) :=
  ⟨(C5_first_start_write_once TimeDict.init "a" 1 2).1 rfl,
   (C5_first_start_write_once tdOpen "a" 3 4).2.1 1 (by decide),
   (C5_first_start_write_once tdOpen "a" 3 4).2.2.1,
   (C5_first_start_write_once tdOpen "a" 1 2).2.2.2.1 (by decide),
   (C5_first_start_write_once tdOpen "a" 1 2).2.2.2.2.1 5 tdClosed rfl rfl,
   (C5_first_start_write_once TimeDict.init "a" 1 2).2.2.2.2.2 rfl⟩

/-- C6: an exit on an empty key stack fails, as the source list.pop raises
IndexError, and it does so before any mapping entry is written, so no
post-state exists. -/
theorem C6_stop_on_empty_stack_fails (td : TimeDict) (t : ℚ)
    (h : td.key_stack = []) : td.exit t = none := by
  simp [TimeDict.exit, h]

/-- Witness for C6 at the initial state. -/
theorem C6_witness : TimeDict.init.exit 3 = none :=
  C6_stop_on_empty_stack_fails TimeDict.init 3 rfl

/-- C7: when the resource facility is missing, used_memory returns 0 and
emits exactly one warning line instead of failing; when it is available it
returns the peak resident set size divided by the given unit, with no
warning; there is no other outcome. -/
theorem C7_used_memory (m unit : ℚ) :
    ((used_memory none unit).1 = 0 ∧ (used_memory none unit).2.length = 1) ∧
    used_memory (some m) unit = (m / unit, []) :=
  ⟨⟨rfl, rfl⟩, rfl⟩

/-- C8: on every exit, with any exception state, the duration now minus
start is stored on the instance and exactly one completion line is emitted:
the logger info message when a logger was supplied, the colored console
line otherwise; the exception state does not affect the result at all. -/
theorem C8_exit_records_and_reports (tc : TimeContext) (now : ℚ)
    (exc : Option String) :
    ((tc.exit now exc).1.duration = now - tc.start) ∧
    ((tc.exit now exc).2.1.length = 1) ∧
    (tc.hasLogger = true →
      (tc.exit now exc).2.1 = [Report.info tc.msg (now - tc.start)]) ∧
    (tc.hasLogger = false →
      (tc.exit now exc).2.1 = [Report.console (now - tc.start) "green"]) ∧
    (∀ exc2, tc.exit now exc2 = tc.exit now exc) := by
  refine ⟨rfl, rfl, ?_, ?_, fun _ => rfl⟩
  · intro h; simp [TimeContext.exit, h]
  · intro h; simp [TimeContext.exit, h]

/-- Witness for C8 with and without a logger. -/
theorem C8_witness :
    (((TimeContext.make "op" true).exit 5 none).2.1 =
      [Report.info "op" (5 - 0)]) ∧
    (((TimeContext.make "op" false).exit 5 (some "err")).2.1 =
      [Report.console (5 - 0) "green"]) :=
  ⟨(C8_exit_records_and_reports (TimeContext.make "op" true) 5 none).2.2.1 rfl,
   (C8_exit_records_and_reports (TimeContext.make "op" false) 5
      (some "err")).2.2.2.1 rfl⟩

/-- C10: the scope-exit handler answers false to the suppression question
of the context manager protocol (the source returns None), so an exception
raised in the guarded block propagates out of the with statement unchanged. -/
theorem C10_exit_never_suppresses (tc : TimeContext) (t0 t1 : ℚ) (e : String)
    (exc : Option String) :
    ((tc.exit t1 exc).2.2 = false) ∧
    ((withTime tc t0 t1 (Except.error e : Except String Unit)).1 =
      Except.error e) :=
  ⟨rfl, rfl⟩

/-- C9: begin touches only the stack, start_time of its key and, when
absent, first_start_time of its key; an exit that pops a key without a
pending reset touches only the stack, end_time and accum_time of that key;
every entry of any other key is unchanged. -/
theorem C9_frame (td : TimeDict) (k j : String) (t1 t2 : ℚ) (hjk : j ≠ k) :
    ((td.begin k t1 t2).start_time.lookup j = td.start_time.lookup j ∧
     (td.begin k t1 t2).first_start_time.lookup j =
       td.first_start_time.lookup j ∧
     (td.begin k t1 t2).accum_time = td.accum_time ∧
     (td.begin k t1 t2).end_time = td.end_time ∧
     (td.begin k t1 t2).pending_reset = td.pending_reset ∧
     (td.begin k t1 t2).key_stack = k :: td.key_stack) ∧
    (∀ t rest td2, td.key_stack = k :: rest → td.pending_reset = false →
      td.exit t = some td2 →
      td2.key_stack = rest ∧ td2.start_time = td.start_time ∧
      td2.first_start_time = td.first_start_time ∧
      td2.pending_reset = false ∧
      td2.end_time.lookup j = td.end_time.lookup j ∧
      td2.accum_time.lookup j = td.accum_time.lookup j) := by
  constructor
  · refine ⟨?_, ?_, rfl, rfl, rfl, rfl⟩
    · simp [TimeDict.begin, lookup_mapSet, hjk]
    · by_cases h : (td.first_start_time.lookup k).isSome
      · simp [TimeDict.begin, h]
      · simp [TimeDict.begin, h, lookup_mapSet, hjk]
  · intro t rest td2 hstk hpend hexit
    simp [TimeDict.exit, hstk, hpend] at hexit
    subst hexit
    exact ⟨rfl, rfl, rfl, rfl, by simp [lookup_mapSet, hjk],
      by simp [lookup_mapSet, hjk]⟩

/-- Witness for C9 at concrete states: a begin and an exit of region a do
not touch the entries of region b. -/
theorem C9_witness :
    ((tdOpen.begin "a" 3 4).accum_time = tdOpen.accum_time) ∧
    ((tdOpen.begin "a" 3 4).first_start_time.lookup "b" =
      tdOpen.first_start_time.lookup "b") ∧
    (tdClosed.end_time.lookup "b" = tdOpen.end_time.lookup "b") ∧
    (tdClosed.accum_time.lookup "b" = tdOpen.accum_time.lookup "b") :=
  ⟨(C9_frame tdOpen "a" "b" 3 4 (by decide)).1.2.2.1,
   (C9_frame tdOpen "a" "b" 3 4 (by decide)).1.2.1,
   ((C9_frame tdOpen "a" "b" 3 4 (by decide)).2 5 [] tdClosed (by decide) rfl
      rfl).2.2.2.2.1,
   ((C9_frame tdOpen "a" "b" 3 4 (by decide)).2 5 [] tdClosed (by decide) rfl
      rfl).2.2.2.2.2⟩

/-- C3: the profiling toggle is read from the environment of the call being
made, never cached: in any sequence of invocations the last call behaves as
a single invocation under its own environment, whatever the earlier
environments were; a falsy or absent flag makes the call run the callable
plainly with no log line, and a truthy flag makes the measurement path run,
emitting its log line once the callable returns. -/
theorem C3_fresh_toggle {α ε β : Type} (qualname : String) (f : α → Except ε β)
    (pre : List (CallCtx α)) (c : CallCtx α) :
    ((runCalls qualname f (pre ++ [c])).getLast? =
      some (arg_wrapper c.env qualname f c.arg c.t0 c.t1 c.r0 c.r1)) ∧
    (envTruthy c.env = false →
      arg_wrapper c.env qualname f c.arg c.t0 c.t1 c.r0 c.r1 = (f c.arg, [])) ∧
    (envTruthy c.env = true → ∀ r, f c.arg = Except.ok r →
      (arg_wrapper c.env qualname f c.arg c.t0 c.t1 c.r0 c.r1).2.length = 1) := by
  refine ⟨?_, ?_, ?_⟩
  · simp [runCalls]
  · intro h
    simp [arg_wrapper, h]
  · intro h r hr
    simp [arg_wrapper, h, hr]

/-- Witness for C3: under an enabling environment following a disabled
call, the last call measures; under an absent flag it does not. -/
theorem C3_witness :
    ((runCalls "foo" fId [ctxOn, ctxOff]).getLast? =
      some (arg_wrapper ctxOff.env "foo" fId ctxOff.arg ctxOff.t0 ctxOff.t1
        ctxOff.r0 ctxOff.r1)) ∧
    (arg_wrapper ctxOff.env "foo" fId ctxOff.arg ctxOff.t0 ctxOff.t1
      ctxOff.r0 ctxOff.r1 = (fId 7, [])) ∧
    ((arg_wrapper ctxOn.env "foo" fId ctxOn.arg ctxOn.t0 ctxOn.t1
      ctxOn.r0 ctxOn.r1).2.length = 1) :=
  ⟨(C3_fresh_toggle "foo" fId [ctxOn] ctxOff).1,
   (C3_fresh_toggle "foo" fId [ctxOn] ctxOff).2.1 (by decide),
   (C3_fresh_toggle "foo" fId [] ctxOn).2.2 (by decide) 7 rfl⟩

/-- C4 as stated is false: with the toggle enabled, a call whose callable
raises emits no profiling log line, not exactly one — the source logs only
after the call returns, and the raise propagates first. -/
theorem C4_counterexample :
    ¬ ((arg_wrapper [("JINA_PROFILING", "1")] "foo" failingCall () 0 1
        none none).2.length = 1) := by
  decide

/-- C4 amended: the value of the wrapped callable is returned unchanged and a
raised failure propagates unchanged, toggle enabled or disabled; with the
toggle disabled no profiling log line is emitted; with it enabled exactly
one log line is emitted per call that returns normally, and none for a call
that raises. -/
theorem C4_wrapper_transparent {α ε β : Type} (env : List (String × String))
    (qualname : String) (f : α → Except ε β) (x : α) (t0 t1 : ℚ)
    (r0 r1 : Option ℚ) :
    ((arg_wrapper env qualname f x t0 t1 r0 r1).1 = f x) ∧
    (envTruthy env = false → (arg_wrapper env qualname f x t0 t1 r0 r1).2 = []) ∧
    (envTruthy env = true →
      (∀ r, f x = Except.ok r →
        (arg_wrapper env qualname f x t0 t1 r0 r1).2.length = 1) ∧
      (∀ e, f x = Except.error e →
        (arg_wrapper env qualname f x t0 t1 r0 r1).2 = [])) := by
  refine ⟨?_, ?_, ?_⟩
  · by_cases h : envTruthy env
    · cases hf : f x <;> simp [arg_wrapper, h, hf]
    · simp [arg_wrapper, h]
  · intro h
    simp [arg_wrapper, h]
  · intro h
    exact ⟨fun r hr => by simp [arg_wrapper, h, hr],
      fun e he => by simp [arg_wrapper, h, he]⟩

/-- Witness for C4 amended: a disabled call logs nothing, an enabled
returning call logs once, an enabled raising call logs nothing. -/
theorem C4_witness :
    ((arg_wrapper [] "foo" fId 7 0 1 none none).2 = []) ∧
    ((arg_wrapper [("JINA_PROFILING", "1")] "foo" fId 7 0 1 none
      none).2.length = 1) ∧
    ((arg_wrapper [("JINA_PROFILING", "1")] "foo" failingCall () 0 1 none
      none).2 = []) :=
  ⟨(C4_wrapper_transparent [] "foo" fId 7 0 1 none none).2.1 (by decide),
   ((C4_wrapper_transparent [("JINA_PROFILING", "1")] "foo" fId 7 0 1 none
      none).2.2 (by decide)).1 7 rfl,
   ((C4_wrapper_transparent [("JINA_PROFILING", "1")] "foo" failingCall () 0 1
      none none).2.2 (by decide)).2 "boom" rfl⟩

/-- Running a reset-free trace from a state with the pending flag down adds
to each accumulated total exactly the sum of the intervals that the spec
assigns to the trace, provided the stack and most-recent-start map of the state
are described by stk and ls. -/
theorem runOps_intervals (ops : List Op) :
    ∀ (td td2 : TimeDict) (stk : List String) (ls : String → ℚ),
    noReset ops = true →
    td.pending_reset = false →
    td.key_stack = stk →
    (∀ j, lookupD td.start_time j = ls j) →
    runOps td ops = some td2 →
    ∃ ivs, specIntervals stk ls ops = some ivs ∧
      ∀ j, lookupD td2.accum_time j = lookupD td.accum_time j + sumFor j ivs := by
  induction ops with
  | nil =>
    intro td td2 stk ls _ _ _ _ hrun
    refine ⟨[], by simp [specIntervals], ?_⟩
    simp only [runOps, Option.some.injEq] at hrun
    subst hrun
    intro j
    simp [sumFor]
  | cons op rest ih =>
    intro td td2 stk ls hnr hpend hstk hls hrun
    cases op with
    | begin k t1 t2 =>
      have hnr2 : noReset rest = true := by
        simp [noReset] at hnr ⊢
        exact hnr
      have hrun2 : runOps (td.begin k t1 t2) rest = some td2 := hrun
      have hls2 : ∀ j, lookupD (td.begin k t1 t2).start_time j =
          (fun j => if j = k then t2 else ls j) j := by
        intro j
        simp only [TimeDict.begin, lookupD_mapSet]
        split <;> simp [hls j]
      obtain ⟨ivs, hspec, hacc⟩ := ih (td.begin k t1 t2) td2 (k :: stk)
        (fun j => if j = k then t2 else ls j) hnr2 hpend
        (by simp [TimeDict.begin, hstk]) hls2 hrun2
      refine ⟨ivs, ?_, ?_⟩
      · subst hstk
        simpa only [specIntervals] using hspec
      · intro j
        exact hacc j
    | stop t =>
      have hnr2 : noReset rest = true := by
        simp [noReset] at hnr ⊢
        exact hnr
      cases hstk2 : td.key_stack with
      | nil =>
        rw [hstk2] at hstk
        simp [runOps, TimeDict.exit, hstk2] at hrun
      | cons k s =>
        rw [hstk2] at hstk
        have hrun2 : runOps
            { td with
              key_stack := s,
              end_time := mapSet td.end_time k t,
              accum_time := mapSet td.accum_time k
                (lookupD td.accum_time k + (t - lookupD td.start_time k)) }
            rest = some td2 := by
          simpa [runOps, TimeDict.exit, hstk2, hpend] using hrun
        obtain ⟨ivs, hspec, hacc⟩ := ih
          { td with
            key_stack := s,
            end_time := mapSet td.end_time k t,
            accum_time := mapSet td.accum_time k
              (lookupD td.accum_time k + (t - lookupD td.start_time k)) }
          td2 s ls hnr2 hpend rfl hls hrun2
        refine ⟨(k, t - ls k) :: ivs, ?_, ?_⟩
        · subst hstk
          simp [specIntervals, hspec]
        · intro j
          have h3 := hacc j
          by_cases hj : j = k
          · subst hj
            rw [h3]
            simp [lookupD_mapSet, sumFor_cons, hls j]
            ring
          · have hkj : ¬ k = j := fun h => hj h.symm
            rw [h3]
            simp only [lookupD_mapSet, if_neg hj, sumFor_cons, if_neg hkj]
    | reset =>
      simp [noReset] at hnr

/-- C2: for every strictly LIFO, reset-free begin/end trace that runs
without underflow from the initial state, the accumulated total of every
key equals the sum of its measured intervals, each interval being the stop
reading minus the most recent start reading recorded for that key. -/
theorem C2_accum_eq_interval_sum (ops : List Op) (td : TimeDict) (k : String)
    (hnr : noReset ops = true)
    (hrun : runOps TimeDict.init ops = some td) :
    ∃ ivs, specIntervals [] (fun _ => 0) ops = some ivs ∧
      lookupD td.accum_time k = sumFor k ivs := by
  obtain ⟨ivs, hspec, hacc⟩ := runOps_intervals ops TimeDict.init td []
    (fun _ => 0) hnr rfl rfl (fun j => rfl) hrun
  refine ⟨ivs, hspec, ?_⟩
  have h := hacc k
  simpa [TimeDict.init, lookupD] using h

/-- Witness for C2 on the nested trace exampleOps ending in exampleTd. -/
theorem C2_witness :
    ∃ ivs, specIntervals [] (fun _ => 0) exampleOps = some ivs ∧
      lookupD exampleTd.accum_time "b" = sumFor "b" ivs :=
  C2_accum_eq_interval_sum exampleOps exampleTd "b" (by decide) rfl

end JinaProfile
